import Mathlib

/-!
Shallow embedding of `src/4anime_gg.py` (the 4anime.gg data collector).

The network, the HTML parser and the thread/event-loop machinery are external
effects; they are modelled by explicit data passed to the embedded functions:

* a `Response` value stands for the outcome of one HTTP GET of a listing URL,
  after `response.json()` and the BeautifulSoup pass — `EpItem` carries the
  `data-id` attribute and the first anchor's `href` exactly as the code reads
  them;
* an `OracleResponse` value stands for the outcome of one TMDB search call;
* an `Env` packs, per request target / per name token, the response, the
  oracle behaviour and whether the `future.result(...)` retrieval of the
  enrichment task raises (a pool-level failure);
* the `as_completed` iteration order of the thread-pool variant is an explicit
  index list `order`.

Python string/int primitives used by the code (`int(...)`, `str.title()`,
`str.strip()`, `re.sub(r'-\d+\?$', ...)`, `re.search(r'/watch/([^?]+)', ...)`)
are modelled character-by-character for ASCII inputs.
-/

/-- Python whitespace as used by `str.strip()` / `int(str)` (ASCII range). -/
def pyIsSpace (c : Char) : Bool :=
  c = ' ' || c = '\t' || c = '\n' || c = '\r' || c = '\x0b' || c = '\x0c'

/-- Python `str.strip()` on a character list: drop whitespace from both ends. -/
def pyStrip (cs : List Char) : List Char :=
  ((cs.dropWhile pyIsSpace).reverse.dropWhile pyIsSpace).reverse

/-- Numeric value of an ASCII digit. -/
def digitVal (c : Char) : Nat := c.toNat - 48

/-- Digit tail of a Python integer literal: digits with single underscores
allowed between digits (`int("1_0") = 10`), accumulating into `acc`. -/
def pyDigitsCore (acc : Nat) : List Char → Option Nat
  | [] => some acc
  | c :: rest =>
    if c.isDigit then pyDigitsCore (acc * 10 + digitVal c) rest
    else if c = '_' then
      match rest with
      | [] => none
      | d :: rest2 =>
        if d.isDigit then pyDigitsCore (acc * 10 + digitVal d) rest2 else none
    else none

/-- Unsigned part of Python `int(str)`: must start with a digit. -/
def pyNatParse : List Char → Option Nat
  | [] => none
  | c :: rest => if c.isDigit then pyDigitsCore (digitVal c) rest else none

/-- Python `int(str)`: strip whitespace, optional sign, digits (with
underscores); `none` models the `ValueError` the code catches. -/
def pyIntParse (s : String) : Option Int :=
  match pyStrip s.toList with
  | '-' :: rest => (pyNatParse rest).map (fun n => -(n : Int))
  | '+' :: rest => (pyNatParse rest).map (fun n => (n : Int))
  | l => (pyNatParse l).map (fun n => (n : Int))

/-- Python `str.title()` on ASCII: a letter after a non-letter is uppercased, a
letter after a letter is lowercased; other characters pass through. -/
def pyTitleAux : Bool → List Char → List Char
  | _, [] => []
  | prevCased, c :: rest =>
    if c.isAlpha then
      (if prevCased then c.toLower else c.toUpper) :: pyTitleAux true rest
    else
      c :: pyTitleAux false rest

/-- Python `str.title()` (ASCII model). -/
def pyTitle (s : String) : String := String.mk (pyTitleAux false s.toList)

/-- Model of `re.sub(r'-\d+\?$', '', s)`: remove a trailing `-<digits>?` suffix when
present, otherwise return `s` unchanged. -/
def stripEpisodeSuffix (s : String) : String :=
  match s.toList.reverse with
  | '?' :: rest =>
    let ds := rest.takeWhile Char.isDigit
    if ds.isEmpty then s
    else
      match rest.drop ds.length with
      | '-' :: rest2 => String.mk rest2.reverse
      | _ => s
  | _ => s

/-- The name normalisation inside `get_tmdb_info_sync`: strip the trailing
`-<digits>?` suffix, replace `'-'` by `' '`, then `strip()`. -/
def normalizeName (s : String) : String :=
  String.mk (pyStrip ((stripEpisodeSuffix s).toList.map
    (fun c => if c = '-' then ' ' else c)))

/-- Model of `s.split('-')[0]`: the segment before the first `'-'`. -/
def firstDashSegment (s : String) : String :=
  String.mk (s.toList.takeWhile (fun c => c ≠ '-'))

/-- Does `re.search(r'/watch/([^?]+)', _)` match at the start of `l`
(literal `/watch/` followed by at least one non-`'?'` character)? -/
def watchAt (l : List Char) : Bool :=
  decide (l.take 7 = ['/', 'w', 'a', 't', 'c', 'h', '/']) &&
    (match l.drop 7 with
     | [] => false
     | ch :: _ => ch ≠ '?')

/-- Model of `re.search(r'/watch/([^?]+)', href)`: scan left to right for the first
position where the pattern matches; the captured group is the maximal run of
non-`'?'` characters after the `/watch/` literal. -/
def watchCapture : List Char → Option (List Char)
  | [] => none
  | c :: rest =>
    if watchAt (c :: rest) then
      some (((c :: rest).drop 7).takeWhile (fun ch => ch ≠ '?'))
    else watchCapture rest

/-! ### Data model -/

/-- One `li.ep-item` element: its `data-id` attribute and the `href` of its
first anchor (`none` when the anchor or the attribute is missing). -/
structure EpItem where
  dataId : Option String
  href : Option String
deriving DecidableEq, Repr

/-- Outcome of one listing request, as the code observes it.
`transportError` covers a raised request/read exception; `ok status body`
carries the HTTP status and, when the JSON body parsed, the `"html"` field
(defaulted to `""` by `data.get("html", "")`) together with the `ep-item`
elements BeautifulSoup finds in that markup; `body = none` models a body on
which `response.json()` raises. -/
inductive Response where
  | transportError
  | ok (status : Nat) (body : Option (String × List EpItem))
deriving DecidableEq, Repr

/-- Result of one fetch of a listing: `failed` when the function took an
error path (and appended the URL to the error list), otherwise the
`(first_ep, last_ep, anime_name)` triple — `name` may be `none` when the
`/watch/` pattern did not match (this is NOT a `failed` outcome). -/
inductive FetchOutcome where
  | failed
  | fetched (first last : Int) (name : Option String)
deriving DecidableEq, Repr

/-- One element of the TMDB `results` array, with the three fields the code
reads; `id = none` models a candidate without an `id` key (the subscript
raises `KeyError`). -/
structure Candidate where
  id : Option Int
  first_air_date : Option String
  name : Option String
deriving DecidableEq, Repr

/-- Outcome of one TMDB search request: `error` covers a transport error,
a non-2xx status (`raise_for_status`), a JSON parse failure or a body with
no `results` key; `ok results` is a well-formed response. -/
inductive OracleResponse where
  | error
  | ok (results : List Candidate)
deriving DecidableEq, Repr

/-! ### Episode Fetcher -/

/-- The numeric episode ids of a listing: for each item, `item.get('data-id')`
and, when present and truthy, `int(data_id)`; failures are skipped. -/
def episodeNumbers (items : List EpItem) : List Int :=
  items.filterMap (fun it => it.dataId.bind pyIntParse)

/-- Python `min(list)` on a nonempty list (0 is an unused default). -/
def listMin : List Int → Int
  | [] => 0
  | x :: xs => xs.foldl min x

/-- Python `max(list)` on a nonempty list (0 is an unused default). -/
def listMax : List Int → Int
  | [] => 0
  | x :: xs => xs.foldl max x

/-- The shared body of both fetch variants after their status checks
(the code is duplicated verbatim between `extract_episodes_and_name` and
`process_single_url`): reject a JSON failure, an empty `html` field, a
listing without `ep-item`s or without numeric ids; otherwise infer the
episode range (single-item case uses the item directly, multi-item case uses
`min`/`max`) and extract the name token from the first item's anchor. -/
def parseListing (body : Option (String × List EpItem)) : FetchOutcome :=
  match body with
  | none => .failed
  | some (html, items) =>
    if html = "" then .failed
    else
      match items with
      | [] => .failed
      | first :: rest =>
        let nums := episodeNumbers (first :: rest)
        if nums.isEmpty then .failed
        else
          let fl : Int × Int :=
            if nums.length = 1 then (nums.headD 0, nums.headD 0)
            else (listMin nums, listMax nums)
          let animeName : Option String :=
            match first.href with
            | none => none
            | some h =>
              (watchCapture h.toList).map (fun cs => String.mk cs ++ "?")
          .fetched fl.1 fl.2 animeName

/-- Model of `AnimeExtractor.extract_episodes_and_name` (async variant): any raised
exception and any status other than 200 is a failure; otherwise the shared
listing parse runs. -/
def extract_episodes_and_name (r : Response) : FetchOutcome :=
  match r with
  | .transportError => .failed
  | .ok status body => if status ≠ 200 then .failed else parseListing body

/-- Model of `process_single_url` (thread-pool variant): `raise_for_status()` raises
exactly for 400 ≤ status < 600; otherwise the shared listing parse runs. -/
def process_single_url (r : Response) : FetchOutcome :=
  match r with
  | .transportError => .failed
  | .ok status body =>
    if 400 ≤ status ∧ status < 600 then .failed else parseListing body

/-! ### Catalog Enricher -/

/-- The `try` block of `get_tmdb_info_sync` after the request: `.error ()`
models any raised exception (transport, `raise_for_status`, JSON decode,
missing `results`/`id` key, `int()` on an unparsable date segment). -/
def tmdbBody (cleanName : String) (oracle : OracleResponse) :
    Except Unit (Option Int × Option Int × String) :=
  match oracle with
  | .error => .error ()
  | .ok results =>
    match results with
    | [] => .ok (none, none, pyTitle cleanName)
    | c :: _ =>
      match c.id with
      | none => .error ()
      | some cid =>
        match c.first_air_date with
        | none => .ok (some cid, none, c.name.getD (pyTitle cleanName))
        | some d =>
          if d = "" then .ok (some cid, none, c.name.getD (pyTitle cleanName))
          else
            match pyIntParse (firstDashSegment d) with
            | none => .error ()
            | some y => .ok (some cid, some y, c.name.getD (pyTitle cleanName))

/-- Model of `get_tmdb_info_sync` (the method at lines 107–138 and the module-level
function at lines 379–410 have identical bodies). The input is the raw
`anime_name` (possibly `None` in the thread-pool flow); a falsy input returns
the fixed sentinel before any normalisation or oracle call; otherwise the
name is normalised and the oracle result is interpreted, every exception
degrading to `(None, None, clean_name.title())`. -/
def get_tmdb_info_sync (animeName : Option String) (oracle : OracleResponse) :
    Option Int × Option Int × String :=
  match animeName with
  | none => (none, none, "Unknown Anime")
  | some s =>
    if s = "" then (none, none, "Unknown Anime")
    else
      let cleanName := normalizeName s
      match tmdbBody cleanName oracle with
      | .ok r => r
      | .error _ => (none, none, pyTitle cleanName)

/-! ### Records and environment -/

/-- The final per-title JSON object (`series_entry` in both orchestrators).
`name` is `Option` because the thread-pool variant can emit entries whose
`anime_name` is `None`. `imdb_id` is always `None` in the code. -/
structure SeriesRecord where
  serial_no : Nat
  name : Option String
  title : String
  tmdb_id : Option Int
  imdb_id : Option Int
  year : Option Int
  episodes : String
  episode_offset : Int
deriving DecidableEq, Repr

/-- The mutable state of a run: the `successful_data` list and the
`error_urls` list. -/
structure PipeState where
  records : List SeriesRecord
  errors : List String
deriving DecidableEq, Repr

/-- External world for one run: the listing response per request target, the
oracle response per submitted `anime_name`, and whether the enrichment
`future.result(...)` call raises for the item keyed by its target. -/
structure Env where
  resp : String → Response
  oracle : String → OracleResponse
  poolFail : String → Bool

/-- Building one `series_entry` dict from the serial number, the name token,
the TMDB triple and the episode range. -/
def seriesEntry (serial : Nat) (nm : Option String)
    (t : Option Int × Option Int × String) (f l : Int) : SeriesRecord :=
  { serial_no := serial
    name := nm
    title := t.2.2
    tmdb_id := t.1
    imdb_id := none
    year := t.2.1
    episodes := if f = l then toString f else toString f ++ "-" ++ toString l
    episode_offset := f - 1 }

/-! ### Batch Orchestrator, async variant (`process_urls_async`) -/

/-- The validity filter of the async collection loop: skip failed fetches
(`result[0] is None`) and results failing the truthiness test
`if first_ep and last_ep and anime_name`. Keeps `(url, first, last, name)`. -/
def asyncTask (p : String × FetchOutcome) :
    Option (String × Int × Int × String) :=
  match p.2 with
  | .fetched f l (some nm) =>
    if f ≠ 0 ∧ l ≠ 0 ∧ nm ≠ "" then some (p.1, f, l, nm) else none
  | _ => none

/-- One step of the async TMDB-collection loop: a raised
`future.result(timeout=10)` hits `except Exception: continue` (nothing is
recorded anywhere); otherwise a `series_entry` with
`serial_no = len(successful_data) + 1` is appended. -/
def collectAsync (env : Env) (st : PipeState)
    (task : String × Int × Int × String) : PipeState :=
  let (url, f, l, nm) := task
  if env.poolFail url then st
  else
    let t := get_tmdb_info_sync (some nm) (env.oracle nm)
    { st with
        records :=
          st.records ++ [seriesEntry (st.records.length + 1) (some nm) t f l] }

/-- One batch of `process_urls_async`: gather all fetches (each failed fetch
appended its URL to `error_urls` inside `extract_episodes_and_name`), filter
to valid results in batch order, then run the collection loop over the
submitted TMDB tasks in submission order. -/
def processBatchAsync (env : Env) (st : PipeState) (batch : List String) :
    PipeState :=
  let outcomes := batch.map (fun url => (url, extract_episodes_and_name (env.resp url)))
  let errs := outcomes.filterMap
    (fun p => if p.2 = FetchOutcome.failed then some p.1 else none)
  let valid := outcomes.filterMap asyncTask
  valid.foldl (collectAsync env) { records := st.records, errors := st.errors ++ errs }

/-- Structural worker for `chunks`: each step consumes at least one element,
so `l.length` units of fuel always suffice. -/
def chunksFuel (n : Nat) : Nat → List α → List (List α)
  | 0, _ => []
  | _ + 1, [] => []
  | fuel + 1, x :: xs => (x :: xs.take (n - 1)) :: chunksFuel n fuel (xs.drop (n - 1))

/-- Model of the `urls[i:i+n]` slicing of `range(0, len(urls), n)`: split into chunks of
size `n` (the code always uses `n = max_workers ≥ 1`). -/
def chunks (n : Nat) (l : List α) : List (List α) := chunksFuel n l.length l

/-- Model of `AnimeExtractor.process_urls_async`: fold the batch step over the chunks
of the URL list, starting from empty `successful_data` / `error_urls`. -/
def process_urls_async (env : Env) (maxWorkers : Nat) (urls : List String) :
    PipeState :=
  (chunks maxWorkers urls).foldl (processBatchAsync env) ⟨[], []⟩

/-! ### Batch Orchestrator, thread-pool variant (`fast_sync_version`) -/

/-- Phase 1 of `fast_sync_version`: map `process_single_url` over all URLs. -/
def syncOutcomes (env : Env) (urls : List String) :
    List (String × FetchOutcome) :=
  urls.map (fun url => (url, process_single_url (env.resp url)))

/-- The URLs appended to `error_urls` during phase 1. -/
def syncErrs (env : Env) (urls : List String) : List String :=
  (syncOutcomes env urls).filterMap
    (fun p => if p.2 = FetchOutcome.failed then some p.1 else none)

/-- Model of `valid_results = [r for r in results if r is not None]`: note there is no
truthiness filter here — a fetched result with `anime_name = None` or a zero
episode id is kept. -/
def syncValids (env : Env) (urls : List String) :
    List (Int × Int × Option String × String) :=
  (syncOutcomes env urls).filterMap
    (fun p =>
      match p.2 with
      | .fetched f l nm => some (f, l, nm, p.1)
      | .failed => none)

/-- One step of the `as_completed` collection loop of `fast_sync_version`,
taking the index `i` of the completed future in the submitted `valids` list:
a raised `future.result()` hits `except Exception: error_urls.append(url)`;
otherwise a `series_entry` is appended. -/
def collectSync (env : Env)
    (valids : List (Int × Int × Option String × String))
    (st : PipeState) (i : Nat) : PipeState :=
  match valids.get? i with
  | none => st
  | some (f, l, nm, url) =>
    if env.poolFail url then { st with errors := st.errors ++ [url] }
    else
      let t := get_tmdb_info_sync nm (env.oracle (nm.getD ""))
      { st with
          records :=
            st.records ++ [seriesEntry (st.records.length + 1) nm t f l] }

/-- Model of `fast_sync_version`: fetch all URLs, then drain the TMDB futures in the
completion order `order` (a permutation of the indices of `syncValids` in any
actual run; the model takes it as a parameter). -/
def fast_sync_version (env : Env) (urls : List String) (order : List Nat) :
    PipeState :=
  order.foldl (collectSync env (syncValids env urls))
    { records := [], errors := syncErrs env urls }

/-! ### Per-URL classification of the async pipeline (derived view) -/

/-- What one valid task contributes in the async collection loop: `none`
when its `future.result` retrieval raises, otherwise the record content
`(name, tmdb triple, first, last)`. -/
def emitOf (env : Env) : String × Int × Int × String →
    Option (Option String × (Option Int × Option Int × String) × Int × Int)
  | (url, f, l, nm) =>
    if env.poolFail url then none
    else some (some nm, get_tmdb_info_sync (some nm) (env.oracle nm), f, l)

/-- What one URL contributes to `successful_data` in the async pipeline:
`none` when the fetch failed, the truthiness filter dropped it, or its
enrichment retrieval raised; otherwise the record content
`(name, tmdb triple, first, last)`. -/
def asyncEmit (env : Env) (url : String) :
    Option (Option String × (Option Int × Option Int × String) × Int × Int) :=
  (asyncTask (url, extract_episodes_and_name (env.resp url))).bind (emitOf env)

/-- Materialise record contents into `SeriesRecord`s with dense serial
numbers starting at `base + 1`. -/
def enumRecords (base : Nat) :
    List (Option String × (Option Int × Option Int × String) × Int × Int) →
    List SeriesRecord
  | [] => []
  | (nm, t, f, l) :: rest =>
    seriesEntry (base + 1) nm t f l :: enumRecords (base + 1) rest

/-- A URL whose fetch succeeded but which the async pipeline nevertheless
emits nothing for: the silent third outcome. -/
def asyncDropped (env : Env) (url : String) : Bool :=
  decide (extract_episodes_and_name (env.resp url) ≠ FetchOutcome.failed) &&
    decide (asyncEmit env url = none)

/-! ### Helper lemmas: folded `min` / `max` -/

theorem foldl_min_le_init (xs : List Int) : ∀ a : Int, xs.foldl min a ≤ a := by
  induction xs with
  | nil => intro a; exact le_refl a
  | cons y ys ih =>
    intro a
    exact le_trans (ih (min a y)) (min_le_left a y)

theorem le_foldl_max_init (xs : List Int) : ∀ a : Int, a ≤ xs.foldl max a := by
  induction xs with
  | nil => intro a; exact le_refl a
  | cons y ys ih =>
    intro a
    exact le_trans (le_max_left a y) (ih (max a y))

theorem foldl_min_le_mem (xs : List Int) :
    ∀ (a x : Int), x ∈ xs → xs.foldl min a ≤ x := by
  induction xs with
  | nil => intro a x hx; cases hx
  | cons y ys ih =>
    intro a x hx
    rcases List.mem_cons.mp hx with rfl | hx
    · exact le_trans (foldl_min_le_init ys (min a x)) (min_le_right a x)
    · exact ih (min a y) x hx

theorem le_foldl_max_mem (xs : List Int) :
    ∀ (a x : Int), x ∈ xs → x ≤ xs.foldl max a := by
  induction xs with
  | nil => intro a x hx; cases hx
  | cons y ys ih =>
    intro a x hx
    rcases List.mem_cons.mp hx with rfl | hx
    · exact le_trans (le_max_right a x) (le_foldl_max_init ys (max a x))
    · exact ih (max a y) x hx

theorem listMin_le_listMax (x : Int) (xs : List Int) :
    listMin (x :: xs) ≤ listMax (x :: xs) :=
  le_trans (foldl_min_le_init xs x) (le_foldl_max_init xs x)

theorem foldl_min_const (xs : List Int) :
    ∀ x : Int, (∀ y ∈ xs, y = x) → xs.foldl min x = x := by
  induction xs with
  | nil => intro x _; rfl
  | cons y ys ih =>
    intro x h
    have hy : y = x := h y (List.mem_cons_self y ys)
    subst hy
    simp only [List.foldl_cons, min_self]
    exact ih y (fun z hz => h z (List.mem_cons_of_mem y hz))

theorem foldl_max_const (xs : List Int) :
    ∀ x : Int, (∀ y ∈ xs, y = x) → xs.foldl max x = x := by
  induction xs with
  | nil => intro x _; rfl
  | cons y ys ih =>
    intro x h
    have hy : y = x := h y (List.mem_cons_self y ys)
    subst hy
    simp only [List.foldl_cons, max_self]
    exact ih y (fun z hz => h z (List.mem_cons_of_mem y hz))

theorem listMin_eq_listMax_iff (x : Int) (xs : List Int) :
    listMin (x :: xs) = listMax (x :: xs) ↔ ∀ y ∈ x :: xs, y = x := by
  constructor
  · intro h y hy
    have hminy : listMin (x :: xs) ≤ y := by
      rcases List.mem_cons.mp hy with rfl | hy'
      · exact foldl_min_le_init xs y
      · exact foldl_min_le_mem xs x y hy'
    have hymax : y ≤ listMax (x :: xs) := by
      rcases List.mem_cons.mp hy with rfl | hy'
      · exact le_foldl_max_init xs y
      · exact le_foldl_max_mem xs x y hy'
    have hminx : listMin (x :: xs) ≤ x := foldl_min_le_init xs x
    have hxmax : x ≤ listMax (x :: xs) := le_foldl_max_init xs x
    have hy_eq : y = listMin (x :: xs) := le_antisymm (h ▸ hymax) hminy
    have hx_eq : x = listMin (x :: xs) := le_antisymm (h ▸ hxmax) hminx
    exact hy_eq.trans hx_eq.symm
  · intro h
    have h1 : listMin (x :: xs) = x :=
      foldl_min_const xs x (fun y hy => h y (List.mem_cons_of_mem x hy))
    have h2 : listMax (x :: xs) = x :=
      foldl_max_const xs x (fun y hy => h y (List.mem_cons_of_mem x hy))
    rw [h1, h2]

/-! ### Range Inference lemmas -/

/-- Shape of a successful listing parse: the surviving numeric ids form a
nonempty list `n :: ns`, and the range is either the single-id pair or the
`min`/`max` pair. -/
theorem parseListing_eq_fetched {html : String} {items : List EpItem}
    {f l : Int} {nm : Option String}
    (h : parseListing (some (html, items)) = FetchOutcome.fetched f l nm) :
    ∃ n ns, episodeNumbers items = n :: ns ∧
      ((ns = [] ∧ f = n ∧ l = n) ∨
        (ns ≠ [] ∧ f = listMin (n :: ns) ∧ l = listMax (n :: ns))) := by
  by_cases hh : html = ""
  · simp [parseListing, hh] at h
  · cases items with
    | nil => simp [parseListing, hh] at h
    | cons first rest =>
      cases hnum : episodeNumbers (first :: rest) with
      | nil => simp [parseListing, hh, hnum] at h
      | cons n ns =>
        refine ⟨n, ns, rfl, ?_⟩
        cases ns with
        | nil =>
          simp [parseListing, hh, hnum] at h
          exact Or.inl ⟨rfl, h.1.symm, h.2.1.symm⟩
        | cons m ms =>
          simp [parseListing, hh, hnum] at h
          exact Or.inr ⟨by simp, h.1.symm, h.2.1.symm⟩

/-- Range Inference always yields `first ≤ last`. -/
theorem parseListing_le {body : Option (String × List EpItem)} {f l : Int}
    {nm : Option String} (h : parseListing body = FetchOutcome.fetched f l nm) :
    f ≤ l := by
  cases body with
  | none => simp [parseListing] at h
  | some p =>
    obtain ⟨html, items⟩ := p
    obtain ⟨n, ns, _, hcase⟩ := parseListing_eq_fetched h
    rcases hcase with ⟨_, hf, hl⟩ | ⟨_, hf, hl⟩
    · rw [hf, hl]
    · rw [hf, hl]; exact listMin_le_listMax n ns

/-- A successful async fetch factors through `parseListing` with status 200. -/
theorem extract_fetched {r : Response} {f l : Int} {nm : Option String}
    (h : extract_episodes_and_name r = FetchOutcome.fetched f l nm) :
    ∃ body, r = Response.ok 200 body ∧
      parseListing body = FetchOutcome.fetched f l nm := by
  cases r with
  | transportError => simp [extract_episodes_and_name] at h
  | ok status body =>
    by_cases hs : status = 200
    · subst hs
      exact ⟨body, rfl, by simpa [extract_episodes_and_name] using h⟩
    · simp [extract_episodes_and_name, hs] at h

/-- A successful thread-pool fetch factors through `parseListing` with a
non-4xx/5xx status. -/
theorem psu_fetched {r : Response} {f l : Int} {nm : Option String}
    (h : process_single_url r = FetchOutcome.fetched f l nm) :
    ∃ status body, r = Response.ok status body ∧
      ¬(400 ≤ status ∧ status < 600) ∧
      parseListing body = FetchOutcome.fetched f l nm := by
  cases r with
  | transportError => simp [process_single_url] at h
  | ok status body =>
    by_cases hs : 400 ≤ status ∧ status < 600
    · simp [process_single_url, hs] at h
    · exact ⟨status, body, rfl, hs, by simpa [process_single_url, hs] using h⟩

theorem extract_fetched_le {r : Response} {f l : Int} {nm : Option String}
    (h : extract_episodes_and_name r = FetchOutcome.fetched f l nm) : f ≤ l := by
  obtain ⟨body, _, hp⟩ := extract_fetched h
  exact parseListing_le hp

theorem psu_fetched_le {r : Response} {f l : Int} {nm : Option String}
    (h : process_single_url r = FetchOutcome.fetched f l nm) : f ≤ l := by
  obtain ⟨status, body, _, _, hp⟩ := psu_fetched h
  exact parseListing_le hp

/-- Range Inference equality characterisation: the bounds coincide exactly
when all surviving numeric ids are equal (to the first surviving id). -/
theorem parseListing_eq_iff {html : String} {items : List EpItem}
    {f l : Int} {nm : Option String}
    (h : parseListing (some (html, items)) = FetchOutcome.fetched f l nm) :
    f = l ↔ ∀ y ∈ episodeNumbers items, y = (episodeNumbers items).headD 0 := by
  obtain ⟨n, ns, hnum, hcase⟩ := parseListing_eq_fetched h
  rw [hnum]
  rcases hcase with ⟨hns, hf, hl⟩ | ⟨hns, hf, hl⟩
  · subst hns
    simp [hf, hl]
  · rw [hf, hl]
    simpa using listMin_eq_listMax_iff n ns

/-! ### `enumRecords` lemmas -/

theorem enumRecords_append (b : Nat)
    (xs ys : List (Option String × (Option Int × Option Int × String) × Int × Int)) :
    enumRecords b (xs ++ ys) = enumRecords b xs ++ enumRecords (b + xs.length) ys := by
  induction xs generalizing b with
  | nil => simp [enumRecords]
  | cons c rest ih =>
    obtain ⟨nm, t, f, l⟩ := c
    rw [List.cons_append]
    show seriesEntry (b + 1) nm t f l :: enumRecords (b + 1) (rest ++ ys)
        = (seriesEntry (b + 1) nm t f l :: enumRecords (b + 1) rest)
          ++ enumRecords (b + (rest.length + 1)) ys
    rw [ih (b + 1), List.cons_append]
    have : b + 1 + rest.length = b + (rest.length + 1) := by omega
    rw [this]

theorem enumRecords_length (b : Nat)
    (xs : List (Option String × (Option Int × Option Int × String) × Int × Int)) :
    (enumRecords b xs).length = xs.length := by
  induction xs generalizing b with
  | nil => rfl
  | cons c rest ih =>
    obtain ⟨nm, t, f, l⟩ := c
    simp [enumRecords, ih]

theorem enumRecords_serials (b : Nat)
    (xs : List (Option String × (Option Int × Option Int × String) × Int × Int)) :
    (enumRecords b xs).map (fun r => r.serial_no) = List.range' (b + 1) xs.length := by
  induction xs generalizing b with
  | nil => rfl
  | cons c rest ih =>
    obtain ⟨nm, t, f, l⟩ := c
    simp only [enumRecords, List.map_cons, List.length_cons, seriesEntry]
    rw [List.range'_succ, ih (b + 1)]

theorem mem_enumRecords {r : SeriesRecord} {b : Nat}
    {xs : List (Option String × (Option Int × Option Int × String) × Int × Int)}
    (h : r ∈ enumRecords b xs) :
    ∃ serial nm t f l, (nm, t, f, l) ∈ xs ∧ r = seriesEntry serial nm t f l := by
  induction xs generalizing b with
  | nil => cases h
  | cons c rest ih =>
    obtain ⟨nm, t, f, l⟩ := c
    rcases List.mem_cons.mp h with hr | hr
    · exact ⟨b + 1, nm, t, f, l, List.mem_cons_self _ _, hr⟩
    · obtain ⟨serial, nm', t', f', l', hmem, heq⟩ := ih hr
      exact ⟨serial, nm', t', f', l', List.mem_cons_of_mem _ hmem, heq⟩

/-! ### `chunks` lemmas -/

theorem chunksFuel_flatten (n : Nat) :
    ∀ (fuel : Nat) (l : List α), l.length ≤ fuel → (chunksFuel n fuel l).flatten = l := by
  intro fuel
  induction fuel with
  | zero =>
    intro l hl
    have : l = [] := List.eq_nil_of_length_eq_zero (Nat.le_zero.mp hl)
    subst this; rfl
  | succ fuel ih =>
    intro l hl
    cases l with
    | nil => rfl
    | cons x xs =>
      simp only [chunksFuel, List.flatten_cons]
      have hle : (xs.drop (n - 1)).length ≤ fuel := by
        simp only [List.length_cons] at hl
        simp only [List.length_drop]
        omega
      rw [ih (xs.drop (n - 1)) hle]
      simp [List.take_append_drop]

theorem chunks_flatten (n : Nat) (l : List α) : (chunks n l).flatten = l :=
  chunksFuel_flatten n l.length l (le_refl _)

/-! ### Async orchestrator characterisation -/

theorem foldl_collectAsync (env : Env) :
    ∀ (valid : List (String × Int × Int × String)) (st : PipeState),
      valid.foldl (collectAsync env) st =
        ⟨st.records ++ enumRecords st.records.length (valid.filterMap (emitOf env)),
          st.errors⟩ := by
  intro valid
  induction valid with
  | nil => intro st; simp [enumRecords]
  | cons task rest ih =>
    intro st
    obtain ⟨url, f, l, nm⟩ := task
    rw [List.foldl_cons]
    by_cases hp : env.poolFail url
    · have hstep : collectAsync env st (url, f, l, nm) = st := by
        simp [collectAsync, hp]
      rw [hstep, ih st]
      simp [List.filterMap_cons, emitOf, hp]
    · have hstep : collectAsync env st (url, f, l, nm) =
          { st with records := st.records ++
              [seriesEntry (st.records.length + 1) (some nm)
                (get_tmdb_info_sync (some nm) (env.oracle nm)) f l] } := by
        simp [collectAsync, hp]
      rw [hstep, ih]
      simp only [List.filterMap_cons, emitOf, hp, if_neg, ite_false,
        Bool.false_eq_true, List.length_append, List.length_cons,
        List.length_nil, enumRecords]
      rw [List.append_assoc]
      simp [enumRecords, Nat.add_zero, Nat.zero_add]

theorem filterMap_errs (env : Env) (batch : List String) :
    (batch.map (fun url => (url, extract_episodes_and_name (env.resp url)))).filterMap
        (fun p => if p.2 = FetchOutcome.failed then some p.1 else none)
      = batch.filter
          (fun u => decide (extract_episodes_and_name (env.resp u) = FetchOutcome.failed)) := by
  induction batch with
  | nil => rfl
  | cons u rest ih =>
    by_cases h : extract_episodes_and_name (env.resp u) = FetchOutcome.failed <;>
      simp [h, ih, List.filter_cons]

theorem filterMap_valid (env : Env) (batch : List String) :
    ((batch.map (fun url => (url, extract_episodes_and_name (env.resp url)))).filterMap
        asyncTask).filterMap (emitOf env)
      = batch.filterMap (asyncEmit env) := by
  induction batch with
  | nil => rfl
  | cons u rest ih =>
    rw [List.filterMap_map] at ih
    simp only [List.map_cons, List.filterMap_cons]
    cases h : asyncTask (u, extract_episodes_and_name (env.resp u)) with
    | none => simp [asyncEmit, h, ih]
    | some v =>
      simp only [List.filterMap_cons]
      cases hv : emitOf env v with
      | none => simp [asyncEmit, h, hv, ih, Option.bind]
      | some c => simp [asyncEmit, h, hv, ih, Option.bind]

theorem processBatchAsync_eq (env : Env) (st : PipeState) (batch : List String) :
    processBatchAsync env st batch =
      ⟨st.records ++ enumRecords st.records.length (batch.filterMap (asyncEmit env)),
        st.errors ++ batch.filter
          (fun u => decide (extract_episodes_and_name (env.resp u) = FetchOutcome.failed))⟩ := by
  unfold processBatchAsync
  rw [foldl_collectAsync]
  rw [List.filterMap_filterMap]
  have : (batch.map (fun url => (url, extract_episodes_and_name (env.resp url)))).filterMap
      (fun a => (asyncTask a).bind (emitOf env)) =
      ((batch.map (fun url => (url, extract_episodes_and_name (env.resp url)))).filterMap
        asyncTask).filterMap (emitOf env) := (List.filterMap_filterMap _ _ _).symm
  rw [this, filterMap_valid, filterMap_errs]

theorem foldl_batches (env : Env) :
    ∀ (batches : List (List String)) (st : PipeState),
      batches.foldl (processBatchAsync env) st =
        ⟨st.records ++ enumRecords st.records.length
            (batches.flatten.filterMap (asyncEmit env)),
          st.errors ++ batches.flatten.filter
            (fun u => decide (extract_episodes_and_name (env.resp u) = FetchOutcome.failed))⟩ := by
  intro batches
  induction batches with
  | nil => intro st; simp [enumRecords]
  | cons b rest ih =>
    intro st
    rw [List.foldl_cons, processBatchAsync_eq, ih, List.flatten_cons]
    rw [List.filterMap_append, List.filter_append]
    rw [enumRecords_append]
    simp only [List.length_append, enumRecords_length]
    rw [List.append_assoc, List.append_assoc]

/-- Master characterisation of the async orchestrator: the failure list is
exactly the fetch-failed URLs in submission order, and the record list is the
per-URL emitted contents in submission order with dense serial numbers. -/
theorem process_urls_async_eq (env : Env) (mw : Nat) (urls : List String) :
    process_urls_async env mw urls =
      ⟨enumRecords 0 (urls.filterMap (asyncEmit env)),
        urls.filter
          (fun u => decide (extract_episodes_and_name (env.resp u) = FetchOutcome.failed))⟩ := by
  unfold process_urls_async chunks
  rw [foldl_batches, chunksFuel_flatten mw urls.length urls (le_refl _)]
  rfl

/-! ### Per-URL emission lemmas -/

theorem asyncTask_some {url : String} {o : FetchOutcome}
    {u nm : String} {f l : Int}
    (h : asyncTask (url, o) = some (u, f, l, nm)) :
    u = url ∧ o = FetchOutcome.fetched f l (some nm) ∧
      f ≠ 0 ∧ l ≠ 0 ∧ nm ≠ "" := by
  cases o with
  | failed => simp [asyncTask] at h
  | fetched f' l' nm' =>
    cases nm' with
    | none => simp [asyncTask] at h
    | some s =>
      by_cases hg : f' ≠ 0 ∧ l' ≠ 0 ∧ s ≠ ""
      · have h2 : (if f' ≠ 0 ∧ l' ≠ 0 ∧ s ≠ "" then some (url, f', l', s)
            else none) = some (u, f, l, nm) := h
        rw [if_pos hg] at h2
        simp only [Option.some.injEq, Prod.mk.injEq] at h2
        obtain ⟨hu, hf, hl, hnm⟩ := h2
        subst hu; subst hf; subst hl; subst hnm
        exact ⟨rfl, rfl, hg.1, hg.2.1, hg.2.2⟩
      · have h2 : (if f' ≠ 0 ∧ l' ≠ 0 ∧ s ≠ "" then some (url, f', l', s)
            else none) = some (u, f, l, nm) := h
        rw [if_neg hg] at h2
        cases h2

theorem asyncEmit_some {env : Env} {url : String}
    {c : Option String × (Option Int × Option Int × String) × Int × Int}
    (h : asyncEmit env url = some c) :
    ∃ f l nm, extract_episodes_and_name (env.resp url) =
        FetchOutcome.fetched f l (some nm) ∧
      f ≠ 0 ∧ l ≠ 0 ∧ nm ≠ "" ∧ env.poolFail url = false ∧
      c = (some nm, get_tmdb_info_sync (some nm) (env.oracle nm), f, l) := by
  unfold asyncEmit at h
  cases ht : asyncTask (url, extract_episodes_and_name (env.resp url)) with
  | none => rw [ht] at h; cases h
  | some v =>
    rw [ht] at h
    obtain ⟨u, f, l, nm⟩ := v
    obtain ⟨hu, ho, hf, hl, hnm⟩ := asyncTask_some ht
    subst hu
    by_cases hp : env.poolFail u
    · simp [Option.bind, emitOf, hp] at h
    · simp only [Option.bind, emitOf, hp, if_neg, Bool.false_eq_true,
        ite_false, Option.some.injEq] at h
      exact ⟨f, l, nm, ho, hf, hl, hnm, by simp [hp], h.symm⟩

theorem asyncEmit_none_of_failed {env : Env} {url : String}
    (h : extract_episodes_and_name (env.resp url) = FetchOutcome.failed) :
    asyncEmit env url = none := by
  unfold asyncEmit
  rw [h]
  rfl

theorem asyncEmit_none_of_poolFail {env : Env} {url : String}
    (h : env.poolFail url = true) :
    asyncEmit env url = none := by
  unfold asyncEmit
  cases ht : asyncTask (url, extract_episodes_and_name (env.resp url)) with
  | none => rfl
  | some v =>
    obtain ⟨u, f, l, nm⟩ := v
    obtain ⟨hu, _, _, _, _⟩ := asyncTask_some ht
    subst hu
    simp [Option.bind, emitOf, h]

/-- Pointwise trichotomy of the async pipeline: each URL yields exactly one
of {emitted record, FailureSet entry, silent drop}, so the three counts sum
to the number of URLs. -/
theorem async_count (env : Env) (urls : List String) :
    (urls.filterMap (asyncEmit env)).length
      + (urls.filter
          (fun u => decide (extract_episodes_and_name (env.resp u) = FetchOutcome.failed))).length
      + (urls.filter (fun u => asyncDropped env u)).length
      = urls.length := by
  induction urls with
  | nil => rfl
  | cons u rest ih =>
    simp only [List.filterMap_cons, List.filter_cons, List.length_cons]
    by_cases hfail : extract_episodes_and_name (env.resp u) = FetchOutcome.failed
    · have hnone : asyncEmit env u = none := asyncEmit_none_of_failed hfail
      have hdrop : asyncDropped env u = false := by
        simp [asyncDropped, hfail]
      simp only [hnone, hfail, hdrop, decide_True, if_true, Bool.false_eq_true,
        if_false, List.length_cons]
      omega
    · cases hemit : asyncEmit env u with
      | none =>
        have hdrop : asyncDropped env u = true := by
          simp [asyncDropped, hfail, hemit]
        simp only [hemit, hfail, hdrop, decide_False, Bool.false_eq_true,
          if_false, if_true, List.length_cons]
        omega
      | some c =>
        have hdrop : asyncDropped env u = false := by
          simp [asyncDropped, hemit]
        simp only [hemit, hfail, hdrop, decide_False, Bool.false_eq_true,
          if_false, List.length_cons]
        omega

/-! ### Thread-pool orchestrator lemmas -/

theorem collectSync_step_none {env : Env}
    {valids : List (Int × Int × Option String × String)}
    {st : PipeState} {i : Nat} (hv : valids.get? i = none) :
    collectSync env valids st i = st := by
  unfold collectSync
  rw [hv]

theorem collectSync_step_some {env : Env}
    {valids : List (Int × Int × Option String × String)}
    {st : PipeState} {i : Nat} {f l : Int} {nm : Option String} {url : String}
    (hv : valids.get? i = some (f, l, nm, url)) :
    collectSync env valids st i =
      if env.poolFail url then { st with errors := st.errors ++ [url] }
      else
        { st with records := st.records ++
            [seriesEntry (st.records.length + 1) nm
              (get_tmdb_info_sync nm (env.oracle (nm.getD ""))) f l] } := by
  unfold collectSync
  rw [hv]

theorem foldl_collectSync_records_mem (env : Env)
    (valids : List (Int × Int × Option String × String)) :
    ∀ (order : List Nat) (st : PipeState) (r : SeriesRecord),
      r ∈ (order.foldl (collectSync env valids) st).records →
      r ∈ st.records ∨ ∃ n f l nm url serial,
        valids.get? n = some (f, l, nm, url) ∧ env.poolFail url = false ∧
        r = seriesEntry serial nm
              (get_tmdb_info_sync nm (env.oracle (nm.getD ""))) f l := by
  intro order
  induction order with
  | nil => intro st r h; exact Or.inl h
  | cons i rest ih =>
    intro st r h
    rw [List.foldl_cons] at h
    rcases ih _ r h with hin | hex
    · cases hv : valids.get? i with
      | none =>
        rw [collectSync_step_none hv] at hin
        exact Or.inl hin
      | some v =>
        obtain ⟨f, l, nm, url⟩ := v
        rw [collectSync_step_some hv] at hin
        by_cases hp : env.poolFail url
        · rw [if_pos hp] at hin
          exact Or.inl hin
        · rw [if_neg hp] at hin
          simp only [List.mem_append, List.mem_singleton] at hin
          rcases hin with h1 | h2
          · exact Or.inl h1
          · exact Or.inr ⟨i, f, l, nm, url, st.records.length + 1, hv,
              Bool.eq_false_iff.mpr hp, h2⟩
    · exact Or.inr hex

theorem foldl_collectSync_errors_mono (env : Env)
    (valids : List (Int × Int × Option String × String)) :
    ∀ (order : List Nat) (st : PipeState) (u : String),
      u ∈ st.errors → u ∈ (order.foldl (collectSync env valids) st).errors := by
  intro order
  induction order with
  | nil => intro st u h; exact h
  | cons i rest ih =>
    intro st u h
    rw [List.foldl_cons]
    apply ih
    cases hv : valids.get? i with
    | none => rw [collectSync_step_none hv]; exact h
    | some v =>
      obtain ⟨f, l, nm, url⟩ := v
      rw [collectSync_step_some hv]
      by_cases hp : env.poolFail url
      · rw [if_pos hp]
        simp only [List.mem_append]
        exact Or.inl h
      · rw [if_neg hp]
        exact h

theorem foldl_collectSync_errors_hit (env : Env)
    (valids : List (Int × Int × Option String × String)) :
    ∀ (order : List Nat) (st : PipeState) (i : Nat)
      (f l : Int) (nm : Option String) (url : String),
      i ∈ order → valids.get? i = some (f, l, nm, url) →
      env.poolFail url = true →
      url ∈ (order.foldl (collectSync env valids) st).errors := by
  intro order
  induction order with
  | nil => intro st i f l nm url hi; cases hi
  | cons j rest ih =>
    intro st i f l nm url hi hv hp
    rw [List.foldl_cons]
    rcases List.mem_cons.mp hi with rfl | hi'
    · apply foldl_collectSync_errors_mono
      rw [collectSync_step_some hv, if_pos hp]
      simp
    · exact ih _ i f l nm url hi' hv hp

theorem syncValids_mem (env : Env) (urls : List String)
    {f l : Int} {nm : Option String} {url : String}
    (h : (f, l, nm, url) ∈ syncValids env urls) :
    process_single_url (env.resp url) = FetchOutcome.fetched f l nm := by
  unfold syncValids syncOutcomes at h
  rw [List.filterMap_map] at h
  obtain ⟨u, hu, hmatch⟩ := List.mem_filterMap.mp h
  simp only [Function.comp] at hmatch
  cases ho : process_single_url (env.resp u) with
  | failed => rw [ho] at hmatch; cases hmatch
  | fetched f' l' nm' =>
    rw [ho] at hmatch
    simp only [Option.some.injEq, Prod.mk.injEq] at hmatch
    obtain ⟨hf, hl, hnm, hurl⟩ := hmatch
    subst hf; subst hl; subst hnm; subst hurl
    exact ho

/-! ### Concrete fixtures (used by counterexamples and witnesses) -/

/-- A healthy single-episode listing item: `data-id "3"`,
`href "/watch/a?ep=1"` (name token `"a?"`). -/
def itemGood : EpItem := ⟨some "3", some "/watch/a?ep=1"⟩

def respGood : Response := Response.ok 200 (some ("<ul>", [itemGood]))

/-- A listing whose item has no anchor: the name token cannot be extracted. -/
def respNoName : Response := Response.ok 200 (some ("<ul>", [⟨some "3", none⟩]))

/-- A listing with a negative numeric id. -/
def respNeg : Response :=
  Response.ok 200 (some ("<ul>", [⟨some "-3", some "/watch/a?ep=1"⟩]))

/-- A listing with numeric id 0. -/
def respZero : Response :=
  Response.ok 200 (some ("<ul>", [⟨some "0", some "/watch/a?ep=1"⟩]))

/-- A second healthy listing with a different name token `"b?"`. -/
def respB : Response :=
  Response.ok 200 (some ("<ul>", [⟨some "5", some "/watch/b?ep=1"⟩]))

def oracleEmpty : OracleResponse := OracleResponse.ok []

def envGood : Env := ⟨fun _ => respGood, fun _ => oracleEmpty, fun _ => false⟩

def envNoName : Env := ⟨fun _ => respNoName, fun _ => oracleEmpty, fun _ => false⟩

/-- Every enrichment `future.result` raises (pool-level failure). -/
def envPool : Env := ⟨fun _ => respGood, fun _ => oracleEmpty, fun _ => true⟩

def envNeg : Env := ⟨fun _ => respNeg, fun _ => oracleEmpty, fun _ => false⟩

def envZero : Env := ⟨fun _ => respZero, fun _ => oracleEmpty, fun _ => false⟩

/-- Two URLs with distinct listings. -/
def envTwo : Env :=
  ⟨fun u => if u = "u1" then respGood else respB,
    fun _ => oracleEmpty, fun _ => false⟩

/-- The record the async pipeline emits for `respGood` under `envGood`. -/
def recGood : SeriesRecord :=
  seriesEntry 1 (some "a?")
    (get_tmdb_info_sync (some "a?") (envGood.oracle "a?")) 3 3

/-- TMDB candidate whose `first_air_date` is present but not parsable as an
integer. -/
def candBadDate : Candidate := ⟨some 7, some "unknown", some "X"⟩

/-! ### Claims -/

/-- Claim C1, counterexample: The claim requires every identifier to end in
exactly one of {one SeriesRecord, one FailureSet entry}, explicitly including
an identifier whose fetch succeeds but whose name token cannot be extracted.
Here the fetch of `"u1"` succeeds (`fetched 3 3 none`, no name token), and
the async run yields NO record and NO failure entry: the identifier ends in
neither outcome. -/
theorem c1_counterexample :
    extract_episodes_and_name (envNoName.resp "u1")
        = FetchOutcome.fetched 3 3 none ∧
    process_urls_async envNoName 30 ["u1"] = ⟨[], []⟩ :=
  ⟨rfl, rfl⟩

/-- Claim C1, amended: In the async pipeline every identifier ends in exactly
one of THREE outcomes: one emitted record, one FailureSet entry (exactly the
fetch-failed URLs), or a silent drop (fetch succeeded but the name token was
missing, an episode bound was 0, or the enrichment retrieval raised). The
errors and records lists are fully characterised per URL, and the three
bucket counts partition the input. -/
theorem c1_amended (env : Env) (mw : Nat) (urls : List String) (hmw : 0 < mw) :
    (process_urls_async env mw urls).errors
        = urls.filter
            (fun u => decide (extract_episodes_and_name (env.resp u) = FetchOutcome.failed)) ∧
    (process_urls_async env mw urls).records
        = enumRecords 0 (urls.filterMap (asyncEmit env)) ∧
    (process_urls_async env mw urls).records.length
        + (process_urls_async env mw urls).errors.length
        + (urls.filter (fun u => asyncDropped env u)).length
        = urls.length := by
  have h := process_urls_async_eq env mw urls
  refine ⟨by rw [h], by rw [h], ?_⟩
  rw [h]
  simpa [enumRecords_length] using async_count env urls

/-- Witness for `c1_amended` at a concrete one-URL run. -/
theorem c1_amended_witness :
    (process_urls_async envGood 30 ["u1"]).errors
        = ["u1"].filter
            (fun u => decide (extract_episodes_and_name (envGood.resp u) = FetchOutcome.failed)) ∧
    (process_urls_async envGood 30 ["u1"]).records
        = enumRecords 0 (["u1"].filterMap (asyncEmit envGood)) ∧
    (process_urls_async envGood 30 ["u1"]).records.length
        + (process_urls_async envGood 30 ["u1"]).errors.length
        + (["u1"].filter (fun u => asyncDropped envGood u)).length
        = ["u1"].length :=
  c1_amended envGood 30 ["u1"] (by decide)

/-- Claim C2, counterexample: the URL `"u1"` fetches successfully and passes the
validity filter, its enrichment `future.result(timeout=10)` raises
(`poolFail = true`), and yet the async run records NOTHING: the URL is
absent from the FailureSet (and no record is produced), contradicting the
claim for the async variant (`except Exception: continue` at the collection
loop drops the item silently). -/
theorem c2_counterexample :
    asyncTask ("u1", extract_episodes_and_name (envPool.resp "u1"))
        = some ("u1", 3, 3, "a?") ∧
    envPool.poolFail "u1" = true ∧
    process_urls_async envPool 30 ["u1"] = ⟨[], []⟩ :=
  ⟨rfl, rfl, rfl⟩

/-- Claim C2, amended: An enrichment-retrieval failure is recorded in the
FailureSet only in the thread-pool variant; in the async variant the
FailureSet contains exactly the fetch-failed URLs, so a pool failure there
produces neither a record nor a failure entry. -/
theorem c2_amended :
    (∀ (env : Env) (urls : List String) (order : List Nat) (i : Nat)
        (f l : Int) (nm : Option String) (url : String),
        (syncValids env urls).get? i = some (f, l, nm, url) →
        env.poolFail url = true → i ∈ order →
        url ∈ (fast_sync_version env urls order).errors) ∧
    (∀ (env : Env) (mw : Nat) (urls : List String), 0 < mw →
        (process_urls_async env mw urls).errors
          = urls.filter
              (fun u => decide (extract_episodes_and_name (env.resp u) = FetchOutcome.failed)) ∧
        ∀ url : String, env.poolFail url = true → asyncEmit env url = none) := by
  constructor
  · intro env urls order i f l nm url hv hp hi
    unfold fast_sync_version
    exact foldl_collectSync_errors_hit env _ order _ i f l nm url hi hv hp
  · intro env mw urls hmw
    refine ⟨?_, fun url hp => asyncEmit_none_of_poolFail hp⟩
    rw [process_urls_async_eq]

/-- Witness for `c2_amended`: with every pool retrieval failing, the
thread-pool run does record `"u1"` in the FailureSet, and the async emission
for `"u1"` is `none`. -/
theorem c2_amended_witness :
    "u1" ∈ (fast_sync_version envPool ["u1"] [0]).errors ∧
    asyncEmit envPool "u1" = none := by
  constructor
  · exact c2_amended.1 envPool ["u1"] [0] 0 3 3 (some "a?") "u1"
      (by decide) (by decide) (by decide)
  · exact (c2_amended.2 envPool 30 ["u1"] (by decide)).2 "u1" (by decide)

/-- Claim C3, counterexample: The oracle returns one candidate with
`id = 7` and an unparsable `first_air_date`; the claim says the id and title
are still taken from the candidate with the year absent, but the code's
`int(...)` raises and the whole lookup degrades to the no-match result:
`catalog_id = none`, not `some 7`, and the title is the title-cased
normalized name, not the candidate's. -/
theorem c3_counterexample :
    get_tmdb_info_sync (some "abc?") (OracleResponse.ok [candBadDate])
        = (none, none, "Abc?") ∧
    candBadDate.id = some 7 ∧
    (none : Option Int) ≠ some 7 :=
  ⟨rfl, rfl, by decide⟩

/-- Claim C3, amended: With at least one candidate whose `id` is present:
when the date field is missing or empty, the id is taken and the year is
absent; when the date's leading segment parses as an integer, that integer
(not necessarily a 4-digit year) is the year; when the date is present but
its leading segment is unparsable, the whole call degrades to the no-match
result (id and year absent, title-cased normalized name). The display title
is the candidate's canonical title only when present, otherwise the
title-cased normalized name. -/
theorem c3_amended (s : String) (c : Candidate) (rest : List Candidate)
    (cid : Int) (hs : s ≠ "") (hid : c.id = some cid) :
    ((c.first_air_date = none ∨ c.first_air_date = some "") →
      get_tmdb_info_sync (some s) (OracleResponse.ok (c :: rest))
        = (some cid, none, c.name.getD (pyTitle (normalizeName s)))) ∧
    (∀ (d : String) (y : Int), c.first_air_date = some d → d ≠ "" →
      pyIntParse (firstDashSegment d) = some y →
      get_tmdb_info_sync (some s) (OracleResponse.ok (c :: rest))
        = (some cid, some y, c.name.getD (pyTitle (normalizeName s)))) ∧
    (∀ d : String, c.first_air_date = some d → d ≠ "" →
      pyIntParse (firstDashSegment d) = none →
      get_tmdb_info_sync (some s) (OracleResponse.ok (c :: rest))
        = (none, none, pyTitle (normalizeName s))) := by
  refine ⟨?_, ?_, ?_⟩
  · intro hd
    rcases hd with hd | hd <;>
      simp [get_tmdb_info_sync, hs, tmdbBody, hid, hd]
  · intro d y hd hdne hy
    simp [get_tmdb_info_sync, hs, tmdbBody, hid, hd, hdne, hy]
  · intro d hd hdne hy
    simp [get_tmdb_info_sync, hs, tmdbBody, hid, hd, hdne, hy]

/-- Witness for `c3_amended`: candidate with id 7, no date, name `"X"`. -/
theorem c3_amended_witness :
    get_tmdb_info_sync (some "abc?")
        (OracleResponse.ok [Candidate.mk (some 7) none (some "X")])
      = (some 7, none, "X") := by
  rw [(c3_amended "abc?" ⟨some 7, none, some "X"⟩ [] 7 (by decide) rfl).1
    (Or.inl rfl)]
  rfl

/-- Claim C4, counterexample: The claim asserts submission-order output for
BOTH orchestrators. In the thread-pool variant the TMDB futures are drained
with `as_completed`: with submission order `u1` (name `a?`) then `u2` (name
`b?`) but completion order `[1, 0]`, the output names come out reversed. -/
theorem c4_counterexample :
    syncValids envTwo ["u1", "u2"]
        = [(3, 3, some "a?", "u1"), (5, 5, some "b?", "u2")] ∧
    (fast_sync_version envTwo ["u1", "u2"] [1, 0]).records.map (fun r => r.name)
        = [some "b?", some "a?"] ∧
    ([some "b?", some "a?"] : List (Option String)) ≠ [some "a?", some "b?"] :=
  ⟨rfl, rfl, by decide⟩

/-- Claim C4, amended: The ordering claim holds for the async orchestrator:
its records are exactly the per-URL emissions in submission order (within
and across batches), with dense strictly increasing serial numbers
`1, 2, …`. The thread-pool orchestrator instead emits in completion order. -/
theorem c4_amended (env : Env) (mw : Nat) (urls : List String) (hmw : 0 < mw) :
    (process_urls_async env mw urls).records
        = enumRecords 0 (urls.filterMap (asyncEmit env)) ∧
    (process_urls_async env mw urls).records.map (fun r => r.serial_no)
        = List.range' 1 (urls.filterMap (asyncEmit env)).length := by
  have h := process_urls_async_eq env mw urls
  refine ⟨by rw [h], ?_⟩
  rw [h]
  simpa using enumRecords_serials 0 (urls.filterMap (asyncEmit env))

/-- Witness for `c4_amended` at a concrete two-URL run. -/
theorem c4_amended_witness :
    (process_urls_async envTwo 30 ["u1", "u2"]).records
        = enumRecords 0 (["u1", "u2"].filterMap (asyncEmit envTwo)) ∧
    (process_urls_async envTwo 30 ["u1", "u2"]).records.map (fun r => r.serial_no)
        = List.range' 1 (["u1", "u2"].filterMap (asyncEmit envTwo)).length :=
  c4_amended envTwo 30 ["u1", "u2"] (by decide)

/-- Claim C5, counterexample: the token `"-12?"` is a nonempty name token whose
normalized form is empty; the claim says the enricher returns the sentinel
`"Unknown Anime"` without querying the oracle, but the code's emptiness
check runs on the RAW token before normalisation, so the oracle IS queried
(with an empty query) and the no-match result carries the title-cased empty
string `""`, not the sentinel. -/
theorem c5_counterexample :
    normalizeName "-12?" = "" ∧
    get_tmdb_info_sync (some "-12?") (OracleResponse.ok []) = (none, none, "") ∧
    ("" : String) ≠ "Unknown Anime" :=
  ⟨rfl, rfl, by decide⟩

/-- Claim C5, amended: The sentinel `{absent, absent, "Unknown Anime"}` is
returned (independently of the oracle) exactly for a falsy RAW token
(`None` or `""`); for any nonempty raw token — including one that normalizes
to empty — the oracle result is consulted and interpreted. -/
theorem c5_amended :
    (∀ oracle : OracleResponse,
        get_tmdb_info_sync none oracle = (none, none, "Unknown Anime") ∧
        get_tmdb_info_sync (some "") oracle = (none, none, "Unknown Anime")) ∧
    (∀ (s : String) (oracle : OracleResponse), s ≠ "" →
        get_tmdb_info_sync (some s) oracle =
          match tmdbBody (normalizeName s) oracle with
          | .ok r => r
          | .error _ => (none, none, pyTitle (normalizeName s))) := by
  constructor
  · intro oracle
    exact ⟨rfl, rfl⟩
  · intro s oracle hs
    simp [get_tmdb_info_sync, hs]

/-- Witness for `c5_amended` at the normalized-to-empty token `"-12?"`. -/
theorem c5_amended_witness :
    get_tmdb_info_sync (some "-12?") (OracleResponse.ok [])
      = match tmdbBody (normalizeName "-12?") (OracleResponse.ok []) with
        | .ok r => r
        | .error _ => (none, none, pyTitle (normalizeName "-12?")) :=
  c5_amended.2 "-12?" (OracleResponse.ok []) (by decide)

/-- Claim C6, counterexample: A listing with TWO surviving numeric ids, both
`5`: Range Inference yields `first = last = 5` although the number of
numeric episode ids present is 2, refuting "equality iff exactly one numeric
episode id was present". -/
theorem c6_counterexample :
    parseListing (some ("<ul>",
        [(⟨some "5", some "/watch/x?a"⟩ : EpItem), ⟨some "5", none⟩]))
        = FetchOutcome.fetched 5 5 (some "x?") ∧
    (episodeNumbers
        [(⟨some "5", some "/watch/x?a"⟩ : EpItem), ⟨some "5", none⟩]).length = 2 ∧
    (2 : Nat) ≠ 1 :=
  ⟨rfl, rfl, by decide⟩

/-- Claim C6, amended: For every RangeResult produced by Range Inference,
`first ≤ last`, and `first = last` iff ALL surviving numeric ids are equal
(to the first surviving id); in particular a single surviving numeric id
forces equality. -/
theorem c6_amended (html : String) (items : List EpItem) (f l : Int)
    (nm : Option String)
    (h : parseListing (some (html, items)) = FetchOutcome.fetched f l nm) :
    f ≤ l ∧
    (f = l ↔ ∀ y ∈ episodeNumbers items, y = (episodeNumbers items).headD 0) ∧
    ((episodeNumbers items).length = 1 → f = l) := by
  refine ⟨parseListing_le h, parseListing_eq_iff h, ?_⟩
  intro h1
  rw [parseListing_eq_iff h]
  cases hn : episodeNumbers items with
  | nil => rw [hn] at h1; cases h1
  | cons n ns =>
    rw [hn] at h1
    simp only [List.length_cons, Nat.add_left_eq_self,
      List.length_eq_zero] at h1
    subst h1
    simp

/-- Witness for `c6_amended` at the healthy single-item listing. -/
theorem c6_amended_witness :
    (3 : Int) ≤ 3 ∧
    ((3 : Int) = 3 ↔ ∀ y ∈ episodeNumbers [itemGood],
        y = (episodeNumbers [itemGood]).headD 0) ∧
    ((episodeNumbers [itemGood]).length = 1 → (3 : Int) = 3) :=
  c6_amended "<ul>" [itemGood] 3 3 (some "a?") rfl

/-- Claim C7, confirmed: The enricher is total: it always returns a triple
(its body is a caught `Except`, so no oracle behaviour can raise), a
transport error produces a result identical to the no-results case, and for
a nonempty token that result is `{absent, absent, title-cased normalized
name}`. -/
theorem c7_enricher_total (nm : Option String) (oracle : OracleResponse) :
    (∃ cid yr t, get_tmdb_info_sync nm oracle = (cid, yr, t)) ∧
    get_tmdb_info_sync nm OracleResponse.error
        = get_tmdb_info_sync nm (OracleResponse.ok []) ∧
    (∀ s : String, nm = some s → s ≠ "" →
      get_tmdb_info_sync nm OracleResponse.error
        = (none, none, pyTitle (normalizeName s))) := by
  refine ⟨⟨_, _, _, rfl⟩, ?_, ?_⟩
  · cases nm with
    | none => rfl
    | some s =>
      by_cases hs : s = ""
      · subst hs; rfl
      · simp [get_tmdb_info_sync, hs, tmdbBody]
  · intro s hnm hs
    subst hnm
    simp [get_tmdb_info_sync, hs, tmdbBody]

/-- Witness for `c7_enricher_total` at the token `"abc?"`. -/
theorem c7_enricher_total_witness :
    get_tmdb_info_sync (some "abc?") OracleResponse.error
      = (none, none, "Abc?") := by
  rw [(c7_enricher_total (some "abc?") OracleResponse.error).2.2 "abc?" rfl
    (by decide)]
  rfl

/-- Claim C8, confirmed: Every emitted SeriesRecord, in either orchestrator,
comes from a range `first ≤ last` with `episode_offset = first − 1` and
`episodes` equal to `str(first)` when `first = last` and `"first-last"`
(with `first < last`) otherwise. -/
theorem c8_offset_and_episodes :
    (∀ (env : Env) (mw : Nat) (urls : List String) (r : SeriesRecord),
      0 < mw → r ∈ (process_urls_async env mw urls).records →
      ∃ f l : Int, f ≤ l ∧ r.episode_offset = f - 1 ∧
        r.episodes
          = (if f = l then toString f else toString f ++ "-" ++ toString l) ∧
        (f ≠ l → f < l)) ∧
    (∀ (env : Env) (urls : List String) (order : List Nat) (r : SeriesRecord),
      r ∈ (fast_sync_version env urls order).records →
      ∃ f l : Int, f ≤ l ∧ r.episode_offset = f - 1 ∧
        r.episodes
          = (if f = l then toString f else toString f ++ "-" ++ toString l) ∧
        (f ≠ l → f < l)) := by
  constructor
  · intro env mw urls r hmw hr
    rw [process_urls_async_eq] at hr
    obtain ⟨serial, nm, t, f, l, hmem, hrEq⟩ := mem_enumRecords hr
    obtain ⟨url, _, hemit⟩ := List.mem_filterMap.mp hmem
    obtain ⟨f', l', nm', hex, _, _, _, _, hceq⟩ := asyncEmit_some hemit
    have hfl : f = f' ∧ l = l' := by
      simp only [Prod.mk.injEq] at hceq
      exact ⟨hceq.2.2.1, hceq.2.2.2⟩
    have hle : f ≤ l := by
      rw [hfl.1, hfl.2]
      exact extract_fetched_le hex
    subst hrEq
    exact ⟨f, l, hle, rfl, rfl, fun hne => lt_of_le_of_ne hle hne⟩
  · intro env urls order r hr
    unfold fast_sync_version at hr
    rcases foldl_collectSync_records_mem env _ order _ r hr with hin | hex
    · cases hin
    · obtain ⟨n, f, l, nm, url, serial, hv, _, hrEq⟩ := hex
      have hmem : (f, l, nm, url) ∈ syncValids env urls := List.get?_mem hv
      have hle : f ≤ l := psu_fetched_le (syncValids_mem env urls hmem)
      subst hrEq
      exact ⟨f, l, hle, rfl, rfl, fun hne => lt_of_le_of_ne hle hne⟩

/-- Witness for `c8_offset_and_episodes` at the record emitted for
`respGood` under `envGood`. -/
theorem c8_offset_and_episodes_witness :
    ∃ f l : Int, f ≤ l ∧ recGood.episode_offset = f - 1 ∧
      recGood.episodes
        = (if f = l then toString f else toString f ++ "-" ++ toString l) ∧
      (f ≠ l → f < l) :=
  c8_offset_and_episodes.1 envGood 30 ["u1"] recGood (by decide) (by decide)

/-- Claim C9, counterexample: Status 201 with a perfectly good body: the async
fetcher rejects any status other than 200, while the thread-pool fetcher's
`raise_for_status()` accepts any status below 400 — the same response yields
a failure in one variant and a success in the other, refuting per-item
equivalence. -/
theorem c9_counterexample :
    extract_episodes_and_name (Response.ok 201 (some ("<ul>", [itemGood])))
        = FetchOutcome.failed ∧
    process_single_url (Response.ok 201 (some ("<ul>", [itemGood])))
        = FetchOutcome.fetched 3 3 (some "a?") :=
  ⟨rfl, rfl⟩

/-- Claim C9, amended: The two fetch variants agree on every transport error,
on every status-200 response and on every 4xx/5xx response (both then run
the identical listing parse or both fail); they can disagree only on the
remaining statuses (2xx other than 200, and 3xx/6xx+), where the async
variant fails and the thread-pool variant proceeds. -/
theorem c9_amended :
    (∀ (status : Nat) (body : Option (String × List EpItem)),
      status = 200 ∨ (400 ≤ status ∧ status < 600) →
      extract_episodes_and_name (Response.ok status body)
        = process_single_url (Response.ok status body)) ∧
    extract_episodes_and_name Response.transportError
        = process_single_url Response.transportError := by
  constructor
  · intro status body h
    rcases h with rfl | h
    · simp [extract_episodes_and_name, process_single_url]
    · have h200 : status ≠ 200 := by omega
      simp [extract_episodes_and_name, process_single_url, h200, h]
  · rfl

/-- Witness for `c9_amended` at a 404 response. -/
theorem c9_amended_witness :
    extract_episodes_and_name (Response.ok 404 none)
      = process_single_url (Response.ok 404 none) :=
  c9_amended.1 404 none (Or.inr (by decide))

/-- Claim C10, counterexample: A listing whose single numeric id is `-3` (a
negative value is truthy in Python) is emitted by the async pipeline as a
record with `episode_offset = -4 < 0` and `first_episode = -3 < 1`, refuting
"every emitted SeriesRecord has first_episode ≥ 1 (hence
episode_offset ≥ 0)". -/
theorem c10_counterexample :
    (process_urls_async envNeg 30 ["u1"]).records.map (fun r => r.episode_offset)
        = [-4] ∧
    ((-4 : Int) < 0) :=
  ⟨rfl, by decide⟩

/-- Claim C10, amended: In the async pipeline every emitted record has NONZERO
(not necessarily ≥ 1) episode bounds and a non-empty name, because the
truthiness filter only excludes 0 and empty strings; and a successfully
fetched listing whose min or max numeric id is 0 is indeed filtered out,
contributing neither a record nor a FailureSet entry. -/
theorem c10_amended (env : Env) (mw : Nat) (urls : List String) (hmw : 0 < mw) :
    (∀ r ∈ (process_urls_async env mw urls).records,
      ∃ (f l : Int) (nm : String), f ≠ 0 ∧ l ≠ 0 ∧ nm ≠ "" ∧
        r.name = some nm ∧ r.episode_offset = f - 1 ∧ f ≤ l) ∧
    (∀ (url : String) (f l : Int) (nm : Option String),
      extract_episodes_and_name (env.resp url) = FetchOutcome.fetched f l nm →
      f = 0 ∨ l = 0 →
      asyncEmit env url = none ∧
      url ∉ (process_urls_async env mw urls).errors) := by
  constructor
  · intro r hr
    rw [process_urls_async_eq] at hr
    obtain ⟨serial, nm, t, f, l, hmem, hrEq⟩ := mem_enumRecords hr
    obtain ⟨url, _, hemit⟩ := List.mem_filterMap.mp hmem
    obtain ⟨f', l', nm', hex, hf0, hl0, hnm0, _, hceq⟩ := asyncEmit_some hemit
    simp only [Prod.mk.injEq] at hceq
    obtain ⟨hnm, _, hf, hl⟩ := hceq
    subst hrEq
    refine ⟨f, l, nm', ?_, ?_, hnm0, ?_, rfl, ?_⟩
    · rw [hf]; exact hf0
    · rw [hl]; exact hl0
    · show nm = some nm'
      exact hnm
    · rw [hf, hl]; exact extract_fetched_le hex
  · intro url f l nm hex hzero
    have htask : asyncTask (url, extract_episodes_and_name (env.resp url)) = none := by
      rw [hex]
      cases nm with
      | none => rfl
      | some s =>
        have hguard : ¬(f ≠ 0 ∧ l ≠ 0 ∧ s ≠ "") := by
          rcases hzero with h0 | h0 <;> simp [h0]
        show (if f ≠ 0 ∧ l ≠ 0 ∧ s ≠ "" then some (url, f, l, s) else none) = none
        rw [if_neg hguard]
    constructor
    · unfold asyncEmit
      rw [htask]
      rfl
    · rw [process_urls_async_eq]
      intro hmem
      have := (List.mem_filter.mp hmem).2
      simp only [decide_eq_true_eq] at this
      rw [hex] at this
      cases this

/-- Witness for `c10_amended`: a zero-id listing is silently filtered. -/
theorem c10_amended_witness :
    asyncEmit envZero "u1" = none ∧
    "u1" ∉ (process_urls_async envZero 30 ["u1"]).errors :=
  (c10_amended envZero 30 ["u1"] (by decide)).2 "u1" 0 0 (some "a?") rfl
    (Or.inl rfl)
